import Mathlib

/-!
Verification development for the `BrowserUseLogInterceptor` log-driven event
correlation engine of the z2b-browser-api repository (`agent_tracker.py`).

The Python code classifies free-text log lines with an ordered table of
regular expressions and folds the matches into a structured tracker state
(steps, thoughts, actions, LLM telemetry, unknown-message buffer).

The embedding below translates the code faithfully:
* the regex sublanguage actually used by the `PATTERNS` table is embedded as
  a small backtracking matcher (`reMatch` / `reSearch`) with Python
  `re.search` semantics (leftmost match position, greedy and lazy stars,
  capture groups, `.` not matching a newline);
* `json.loads` is embedded as `Json.parse` (strict JSON grammar);
* wall-clock timestamps, file I/O, logging and the detached callback /
  timeline-builder side channels of the Python class are not part of the
  state model: they never influence the fields the claims are about;
* Python `float` arithmetic on costs is modelled with `ℚ`; the cost values
  involved are exact in both representations;
* `recent_messages` is a Python `set`; `set.pop()` removes an *arbitrary*
  element, so the eviction choice is a parameter `pick` of the message
  processor, constrained in theorems to pick a valid index.
-/

namespace Z2B

/-! ## A small regex engine (the sublanguage used by `PATTERNS`) -/

/-- Regular-expression syntax: single-character classes, sequencing,
alternation (leftmost preferred), greedy and lazy star, capture groups. -/
inductive RE where
  | eps : RE
  | cls (p : Char → Bool) : RE
  | seq (a b : RE) : RE
  | alt (a b : RE) : RE
  | star (r : RE) : RE
  | lazyStar (r : RE) : RE
  | group (n : Nat) (r : RE) : RE

/-- Captured groups: group index paired with the consumed characters. -/
abbrev Caps := List (Nat × List Char)

/-- Structural size of a regex, used to compute the matching fuel. -/
def reSize : RE → Nat
  | .eps => 1
  | .cls _ => 1
  | .seq a b => reSize a + reSize b + 1
  | .alt a b => reSize a + reSize b + 1
  | .star r => reSize r + 1
  | .lazyStar r => reSize r + 1
  | .group _ r => reSize r + 1

/-- Backtracking matcher in continuation-passing style.  `k` receives the
remaining input and the captures accumulated so far.  Greedy `star` first
tries to consume more input, lazy `lazyStar` first tries the continuation,
and alternation prefers its left branch — Python `re` semantics.  The fuel
only bounds the recursion depth; `reSearch` supplies enough of it for the
patterns of the table. -/
def reMatch : Nat → RE → List Char → Caps →
    (List Char → Caps → Option Caps) → Option Caps
  | 0, _, _, _, _ => none
  | _ + 1, .eps, s, caps, k => k s caps
  | _ + 1, .cls _, [], _, _ => none
  | _ + 1, .cls p, c :: s, caps, k => if p c then k s caps else none
  | fuel + 1, .seq a b, s, caps, k =>
      reMatch fuel a s caps (fun s' caps' => reMatch fuel b s' caps' k)
  | fuel + 1, .alt a b, s, caps, k =>
      (reMatch fuel a s caps k).orElse fun _ => reMatch fuel b s caps k
  | fuel + 1, .star r, s, caps, k =>
      (reMatch fuel r s caps fun s' caps' =>
        if s'.length < s.length then reMatch fuel (.star r) s' caps' k
        else none).orElse fun _ => k s caps
  | fuel + 1, .lazyStar r, s, caps, k =>
      (k s caps).orElse fun _ =>
        reMatch fuel r s caps fun s' caps' =>
          if s'.length < s.length then reMatch fuel (.lazyStar r) s' caps' k
          else none
  | fuel + 1, .group n r, s, caps, k =>
      reMatch fuel r s caps fun s' caps' =>
        k s' (caps' ++ [(n, s.take (s.length - s'.length))])

/-- Fuel that is ample for the table's patterns (at most three stars in
sequence, classes consuming one character each). -/
def reFuel (r : RE) (s : List Char) : Nat :=
  (s.length + 2) * (s.length + 2) * (s.length + 2) * (reSize r + 2)

/-- Try to match `r` at the start of `s` (the match may end anywhere). -/
def reTryAt (r : RE) (s : List Char) : Option Caps :=
  reMatch (reFuel r s) r s [] (fun _ caps => some caps)

/-- Python `re.search`: try every start position from the left, return the captures
of the first (leftmost) successful match. -/
def reSearchL (r : RE) : List Char → Option Caps
  | [] => reTryAt r []
  | c :: t =>
    match reTryAt r (c :: t) with
    | some caps => some caps
    | none => reSearchL r t

/-- Search a pattern inside a string, Python `re.search`. -/
def reSearch (r : RE) (s : String) : Option Caps := reSearchL r s.data

/-- Python `match.group(i)` (the empty string when the group is absent). -/
def getGroup (caps : Caps) (n : Nat) : String :=
  match caps.find? (fun c => c.1 == n) with
  | some c => String.mk c.2
  | none => ""

/-- Number of capture groups of a pattern (`len(match.groups())` in Python
is determined by the pattern, not the match). -/
def countGroups : RE → Nat
  | .eps => 0
  | .cls _ => 0
  | .seq a b => max (countGroups a) (countGroups b)
  | .alt a b => max (countGroups a) (countGroups b)
  | .star r => countGroups r
  | .lazyStar r => countGroups r
  | .group n r => max n (countGroups r)

/-! ### Pattern construction helpers -/

/-- The dot class `.`: any character except a newline. -/
def reDot : RE := .cls (fun c => c != '\n')

/-- Literal string. -/
def reLit (s : String) : RE :=
  s.data.foldr (fun c r => RE.seq (.cls (fun d => d == c)) r) .eps

/-- A class-plus `[c]+`: one or more characters of a class, greedy. -/
def rePlus (p : Char → Bool) : RE := .seq (.cls p) (.star (.cls p))

/-- A digit group `(\d+)` as capture group `n`. -/
def reDigits (n : Nat) : RE := .group n (rePlus Char.isDigit)

/-- A greedy `(.*)` as capture group `n`. -/
def dotStarG (n : Nat) : RE := .group n (.star reDot)

/-- A braced `(\{.*?\})` as capture group `n`: braces with a lazy body. -/
def lazyBr (n : Nat) : RE :=
  .group n (.seq (.cls (fun c => c == '{')) (.seq (.lazyStar reDot) (.cls (fun c => c == '}'))))

/-- Alternation of literal strings, leftmost preferred. -/
def altList : List String → RE
  | [] => .eps
  | [x] => reLit x
  | x :: rest => .alt (reLit x) (altList rest)

/-- An alternation `(A|B|...)` as capture group `n`. -/
def grpAlt (n : Nat) (xs : List String) : RE := .group n (altList xs)

/-! ## String helpers -/

/-- Is `n` an infix of `h`?  Python's `in` operator on strings. -/
def infixOf (n : List Char) : List Char → Bool
  | [] => n.isEmpty
  | c :: t => n.isPrefixOf (c :: t) || infixOf n t

/-- Python `needle in hay` for strings. -/
def containsSub (hay needle : String) : Bool := infixOf needle.data hay.data

/-- Python `s.startswith(pre)`.  (Defined on the character lists: the core
byte-level `String` primitives do not reduce in the kernel.) -/
def strStarts (pre s : String) : Bool := pre.data.isPrefixOf s.data

/-- Python `s.endswith(suf)`. -/
def strEnds (suf s : String) : Bool := suf.data.reverse.isPrefixOf s.data.reverse

/-- Python `s.lower()`. -/
def strLower (s : String) : String := String.mk (s.data.map Char.toLower)

/-- Python `s.strip()`. -/
def strTrim (s : String) : String :=
  String.mk (((s.data.dropWhile Char.isWhitespace).reverse.dropWhile Char.isWhitespace).reverse)

/-- Rational addition, same value as `·+·` on `ℚ` (proved in `qAdd_eq`) but
kernel-computable (`Rat.add` is `@[irreducible]`). -/
def qAdd (a b : ℚ) : ℚ := mkRat (a.num * b.den + b.num * a.den) (a.den * b.den)

/-- Python `int(s)` on a digit-only capture: the digits' value (`none` when
the string is empty or holds a non-digit, in which case the Python call
raises and the surrounding handler catches the exception). -/
def parseDigits (s : String) : Option Nat :=
  if s.data ≠ [] && s.data.all Char.isDigit then
    some (s.data.foldl (fun acc c => acc * 10 + (c.toNat - '0'.toNat)) 0)
  else none

/-- Python `float(s)` on a `[\d\.]+` capture, modelled exactly on `ℚ`:
digits with at most one dot and at least one digit; otherwise `none`
(the Python call raises `ValueError`). -/
def parseFloatQ (s : String) : Option ℚ :=
  let cs := s.data
  if cs.all (fun c => c.isDigit || c == '.') && cs.any Char.isDigit
      && (cs.filter (fun c => c == '.')).length ≤ 1 then
    let intPart := cs.takeWhile (fun c => c != '.')
    let fracPart := (cs.dropWhile (fun c => c != '.')).drop 1
    let iv : ℕ := intPart.foldl (fun acc c => acc * 10 + (c.toNat - '0'.toNat)) 0
    let fv : ℕ := fracPart.foldl (fun acc c => acc * 10 + (c.toNat - '0'.toNat)) 0
    some (mkRat (iv * 10 ^ fracPart.length + fv) (10 ^ fracPart.length))
  else none

/-! ## JSON values and `json.loads` -/

/-- JSON values produced by `json.loads` (numbers on `ℚ`; the non-standard
`NaN`/`Infinity` constants accepted by Python are not modelled — no caller
in the repository feeds them). -/
inductive Json where
  | null : Json
  | bool (b : Bool) : Json
  | num (q : ℚ) : Json
  | str (s : String) : Json
  | arr (xs : List Json) : Json
  | obj (kvs : List (String × Json)) : Json

/-- Strip JSON whitespace. -/
def jsWs : List Char → List Char
  | c :: t => if c == ' ' || c == '\t' || c == '\n' || c == '\r' then jsWs t else c :: t
  | [] => []

/-- Parse the characters of a JSON string literal after the opening quote.
Returns the decoded characters and the rest after the closing quote. -/
def jsString (fuel : Nat) (cs : List Char) : Option (List Char × List Char) :=
  match fuel, cs with
  | 0, _ => none
  | _, [] => none
  | fuel + 1, c :: t =>
    if c == '"' then some ([], t)
    else if c == '\\' then
      match t with
      | [] => none
      | e :: t' =>
        if e == 'u' then
          match t' with
          | a :: b :: c2 :: d :: t'' =>
            let isHex : Char → Bool := fun x =>
              x.isDigit || ('a' ≤ x && x ≤ 'f') || ('A' ≤ x && x ≤ 'F')
            if isHex a && isHex b && isHex c2 && isHex d then
              let hv := fun (x : Char) =>
                if x.isDigit then x.toNat - '0'.toNat
                else if 'a' ≤ x && x ≤ 'f' then x.toNat - 'a'.toNat + 10
                else x.toNat - 'A'.toNat + 10
              let code := ((hv a * 16 + hv b) * 16 + hv c2) * 16 + hv d
              (jsString fuel t'').map (fun r => (Char.ofNat code :: r.1, r.2))
            else none
          | _ => none
        else
          let dec : Option Char :=
            if e == '"' then some '"' else if e == '\\' then some '\\'
            else if e == '/' then some '/' else if e == 'b' then some (Char.ofNat 8)
            else if e == 'f' then some (Char.ofNat 12) else if e == 'n' then some '\n'
            else if e == 'r' then some '\r' else if e == 't' then some '\t'
            else none
          match dec with
          | some d => (jsString fuel t').map (fun r => (d :: r.1, r.2))
          | none => none
    else if c.toNat < 32 then none
    else (jsString fuel t).map (fun r => (c :: r.1, r.2))

/-- Parse a JSON number (strict grammar: optional minus, `0` or a nonzero
leading digit, optional fraction, optional exponent). -/
def jsNumber (cs : List Char) : Option (ℚ × List Char) :=
  let (neg, cs1) := match cs with
    | '-' :: t => (true, t)
    | _ => (false, cs)
  let intDigits := cs1.takeWhile Char.isDigit
  let rest1 := cs1.dropWhile Char.isDigit
  if intDigits.isEmpty then none
  else if intDigits.length > 1 && intDigits.headD '0' == '0' then none
  else
    let digitsVal : List Char → ℕ :=
      fun ds => ds.foldl (fun acc c => acc * 10 + (c.toNat - '0'.toNat)) 0
    let iv : ℕ := digitsVal intDigits
    let fracRes : Option (ℕ × ℕ × List Char) := match rest1 with
      | '.' :: t =>
        let fd := t.takeWhile Char.isDigit
        if fd.isEmpty then none
        else some (digitsVal fd, fd.length, t.dropWhile Char.isDigit)
      | _ => some (0, 0, rest1)
    match fracRes with
    | none => none
    | some (fv, flen, rest2) =>
      let expRes : Option (Int × List Char) := match rest2 with
        | e :: t =>
          if e == 'e' || e == 'E' then
            let signRes : Int × List Char := match t with
              | '+' :: t' => (1, t')
              | '-' :: t' => (-1, t')
              | _ => (1, t)
            let ed := signRes.2.takeWhile Char.isDigit
            if ed.isEmpty then none
            else some (signRes.1 * (digitsVal ed : ℕ), signRes.2.dropWhile Char.isDigit)
          else some (0, rest2)
        | [] => some (0, [])
      match expRes with
      | none => none
      | some (ev, rest3) =>
        -- (iv.fv) × 10^ev as an explicit fraction, kernel-computable
        let n0 : Int := (iv * 10 ^ flen + fv : ℕ)
        let v : ℚ :=
          if 0 ≤ ev then mkRat (n0 * (10 : Int) ^ ev.toNat) (10 ^ flen)
          else mkRat n0 (10 ^ flen * 10 ^ (-ev).toNat)
        some (if neg then -v else v, rest3)

mutual
/-- Parse one JSON value. -/
def jsValue (fuel : Nat) (cs : List Char) : Option (Json × List Char) :=
  match fuel with
  | 0 => none
  | fuel + 1 =>
    match jsWs cs with
    | [] => none
    | c :: t =>
      if c == '{' then
        match jsWs t with
        | '}' :: t' => some (.obj [], t')
        | t' => (jsMembers fuel t').map (fun r => (Json.obj r.1, r.2))
      else if c == '[' then
        match jsWs t with
        | ']' :: t' => some (.arr [], t')
        | t' => (jsItems fuel t').map (fun r => (Json.arr r.1, r.2))
      else if c == '"' then
        (jsString (t.length + 1) t).map (fun r => (Json.str (String.mk r.1), r.2))
      else if c == 't' then
        match t with
        | 'r' :: 'u' :: 'e' :: t' => some (.bool true, t')
        | _ => none
      else if c == 'f' then
        match t with
        | 'a' :: 'l' :: 's' :: 'e' :: t' => some (.bool false, t')
        | _ => none
      else if c == 'n' then
        match t with
        | 'u' :: 'l' :: 'l' :: t' => some (.null, t')
        | _ => none
      else if c.isDigit || c == '-' then
        (jsNumber (c :: t)).map (fun r => (Json.num r.1, r.2))
      else none

/-- Parse the members of an object after `{` (at least one). -/
def jsMembers (fuel : Nat) (cs : List Char) : Option (List (String × Json) × List Char) :=
  match fuel with
  | 0 => none
  | fuel + 1 =>
    match jsWs cs with
    | '"' :: t =>
      match jsString (t.length + 1) t with
      | none => none
      | some (key, rest) =>
        match jsWs rest with
        | ':' :: rest' =>
          match jsValue fuel rest' with
          | none => none
          | some (v, rest'') =>
            match jsWs rest'' with
            | ',' :: rest3 =>
              (jsMembers fuel rest3).map (fun r => ((String.mk key, v) :: r.1, r.2))
            | '}' :: rest3 => some ([(String.mk key, v)], rest3)
            | _ => none
        | _ => none
    | _ => none

/-- Parse the items of an array after `[` (at least one). -/
def jsItems (fuel : Nat) (cs : List Char) : Option (List Json × List Char) :=
  match fuel with
  | 0 => none
  | fuel + 1 =>
    match jsValue fuel cs with
    | none => none
    | some (v, rest) =>
      match jsWs rest with
      | ',' :: rest' => (jsItems fuel rest').map (fun r => (v :: r.1, r.2))
      | ']' :: rest' => some ([v], rest')
      | _ => none
end

/-- Python `json.loads`: parse one value, allow surrounding whitespace,
reject trailing input. -/
def Json.parse (s : String) : Option Json :=
  match jsValue (s.data.length + 1) s.data with
  | some (v, rest) => if jsWs rest |>.isEmpty then some v else none
  | none => none

/-- Python `"k" in d` on a parsed payload: key membership, `false` for
non-objects (the brace-anchored patterns only ever yield objects). -/
def Json.hasKey (j : Json) (k : String) : Bool :=
  match j with
  | .obj kvs => kvs.any (fun kv => kv.1 == k)
  | _ => false

/-- Python `d["k"]` on a parsed object: dicts keep the last duplicate key. -/
def Json.getKey (j : Json) (k : String) : Option Json :=
  match j with
  | .obj kvs => (kvs.reverse.find? (fun kv => kv.1 == k)).map (fun kv => kv.2)
  | _ => none

/-! ## Data model (`BrowserUseLogInterceptor` state) -/

/-- A thought attached to a step (`_add_thought_to_step`); the wall-clock
`timestamp` field is not modelled. -/
structure Thought where
  type : String
  original_type : String
  content : String
  raw_message : String
  deriving DecidableEq, Repr

/-- An LLM event attached to a step (`step["llm_events"]`); `data` holds
`match.groups()`. -/
structure LLMEvent where
  type : String
  data : List String
  deriving DecidableEq, Repr

/-- An action attached to a step (`step["actions"]`).  In Python
`action_type` is whatever value the branch computed (normally a string, but
a JSON payload's `type` field is used verbatim), hence a `Json` value. -/
structure ActionRec where
  type : Json
  data : Json
  raw_message : String

/-- One entry of `self.timeline` (a step record).  The Python dict's
`start_timestamp` / `end_timestamp` / `duration_seconds` fields carry wall
clock only and are not modelled; `is_complete` subsumes the completion
marker.  `is_implicit` is absent on explicit steps, modelled as `false`. -/
structure Step where
  step_number : Int
  is_complete : Bool
  message : String
  thoughts : List Thought
  thoughts_by_category : List (String × List String)
  llm_events : List LLMEvent
  actions : List ActionRec
  is_implicit : Bool

/-- One entry of `self.thoughts_by_step[n]`. -/
structure ThoughtDigest where
  step : Int
  category : String
  texto : String
  deriving DecidableEq, Repr

/-- One entry of `self.unknown_messages` (timestamps not modelled; the
action-sink entries carry extra fields). -/
structure UnknownMsg where
  message : String
  action_content : Option String := none
  action_type : Option Json := none
  reason : Option String := none

/-- Per-model entry of `llm_stats["models"]`. -/
structure ModelStats where
  calls : Nat
  total_prompt_tokens : Nat
  total_completion_tokens : Nat
  total_cost : ℚ
  deriving DecidableEq, Repr

/-- State field `self.llm_stats`. -/
structure LlmStats where
  total_calls : Nat
  total_tokens : Nat
  estimated_cost : ℚ
  models : List (String × ModelStats)
  deriving DecidableEq, Repr

/-- State field `self.llm_tracking` (set up by `instalar`). -/
structure LlmTracking where
  current_model : Option String
  current_prompt_tokens : Nat
  current_completion_tokens : Nat
  current_cost : ℚ
  current_step : Option Int
  deriving DecidableEq, Repr

/-- The mutable state of `BrowserUseLogInterceptor` that the line-processing
path reads or writes.  `recent_messages` is a Python `set`; the list keeps
insertion order purely as bookkeeping so that "oldest" is expressible —
membership is what the code observes, and eviction picks an arbitrary
element (see `processMessage`). -/
structure TrackerState where
  timeline : List Step
  current_step : Option Int
  last_step_number : Int
  recent_messages : List String
  message_cache_size : Nat
  thoughts_by_step : List (Int × List ThoughtDigest)
  total_thoughts_detected : Nat
  total_thoughts_processed : Nat
  thought_stats : List (String × Nat)
  llm_stats : LlmStats
  llm_tracking : LlmTracking
  unknown_messages : List UnknownMsg

/-! ## The `PATTERNS` table -/

/-- The ordered regex table `BrowserUseLogInterceptor.PATTERNS` (a Python
3.7+ dict preserves registration order). -/
def PATTERNS : List (String × RE) := [
  ("step", .seq (reLit "📍 Step ") (reDigits 1)),
  ("step_alt", .seq (reLit "Step ") (.seq (reDigits 1) (reLit ":"))),
  ("step_numeric", .seq (reLit "Step ") (.seq (reDigits 1) (reLit " -"))),
  ("z2b_step", .seq (reLit "Z2B Step ") (reDigits 1)),
  ("step_start", .seq (reLit "Begin Step ") (reDigits 1)),
  ("step_complete", .seq (reLit "Step ") (.seq (reDigits 1) (reLit " completed"))),
  ("z2b_step_complete", .seq (reLit "Z2B Step ") (.seq (reDigits 1) (reLit " completed"))),
  ("eval", .seq (grpAlt 1 ["👍", "👎", "🤷", "⚠"]) (.seq (reLit " Eval: ") (dotStarG 2))),
  ("eval_status", .seq (grpAlt 1 ["Success", "Failure", "Uncertain"]) (.seq (reLit " - ") (dotStarG 2))),
  ("eval_alt", .seq (reLit "Evaluation: ") (dotStarG 1)),
  ("eval_broader", .seq (grpAlt 1 ["evaluate", "assessed", "evaluation", "assessment"]) (.seq (reLit ": ") (dotStarG 2))),
  ("memory", .seq (reLit "🧠 Memory: ") (dotStarG 1)),
  ("memory_alt", .seq (reLit "Memory: ") (dotStarG 1)),
  ("memory_content", .seq (reLit "I remember that ") (dotStarG 1)),
  ("memory_broader", .seq (grpAlt 1 ["remembered", "recalling", "recalled"]) (.seq (reLit ": ") (dotStarG 2))),
  ("next_goal", .seq (reLit "🎯 Next goal: ") (dotStarG 1)),
  ("next_goal_alt", .seq (reLit "Next goal: ") (dotStarG 1)),
  ("goal_current", .seq (reLit "Current goal: ") (dotStarG 1)),
  ("goal_broader", .seq (grpAlt 1 ["goal is to", "aiming to", "planning to"]) (.seq (reLit ": ") (dotStarG 2))),
  ("thought", .seq (grpAlt 1 ["🛠️", "💭"]) (.seq (reLit " ") (dotStarG 2))),
  ("thought_alt", .seq (reLit "Thinking: ") (dotStarG 1)),
  ("thought_broader", .seq (grpAlt 1 ["thought", "thinking", "considering", "analyzed", "analyzed"]) (.seq (reLit ": ") (dotStarG 2))),
  ("action", .seq (reLit "Action: ") (dotStarG 1)),
  ("action_result", .seq (reLit "Result: ") (dotStarG 1)),
  ("action_json", .seq (reLit "Action: ") (lazyBr 1)),
  ("action_json_extended", .seq (reLit "Action JSON: ") (lazyBr 1)),
  ("action_json_with_type", .seq (reLit "Action (") (.seq (.group 1 (rePlus (fun c => c.isAlpha || c == '_'))) (.seq (reLit "): ") (lazyBr 2)))),
  ("navigation_action", .seq (reLit "Navigation action: ") (lazyBr 1)),
  ("click_action", .seq (reLit "Click action: ") (lazyBr 1)),
  ("extraction_action", .seq (reLit "Extraction action: ") (lazyBr 1)),
  ("form_action", .seq (reLit "Form action: ") (lazyBr 1)),
  ("llm_request", .seq (reLit "LLM Request: model=") (.seq (dotStarG 1) (.seq (reLit ", prompt=") (.seq (dotStarG 2) (.seq (reLit ", tokens=") (reDigits 3)))))),
  ("llm_request_alt", .seq (reLit "Sending request to ") (.seq (dotStarG 1) (.seq (reLit " with ") (.seq (reDigits 2) (reLit " tokens"))))),
  ("llm_response", .seq (reLit "LLM Response: model=") (.seq (dotStarG 1) (.seq (reLit ", response=") (.seq (dotStarG 2) (.seq (reLit ", tokens=") (reDigits 3)))))),
  ("llm_response_alt", .seq (reLit "Received response from ") (.seq (dotStarG 1) (.seq (reLit " with ") (.seq (reDigits 2) (reLit " tokens"))))),
  ("llm_cost", .seq (reLit "Estimated cost: $") (.group 1 (rePlus (fun c => c.isDigit || c == '.')))),
  ("llm_cost_alt", .seq (reLit "Cost: $") (.group 1 (rePlus (fun c => c.isDigit || c == '.'))))
]

/-! ## Timeline and dictionary helpers -/

/-- First step of the timeline with the given number (the Python code always
scans `self.timeline` front to back and stops at the first hit). -/
def findStep (tl : List Step) (n : Int) : Option Step :=
  tl.find? (fun s => s.step_number == n)

/-- Update the first step with the given number (in Python the scan mutates
the found dict in place and breaks). -/
def updateFirst (tl : List Step) (n : Int) (f : Step → Step) : List Step :=
  match tl with
  | [] => []
  | s :: rest =>
    if s.step_number == n then f s :: rest else s :: updateFirst rest n f

/-- Python `if key not in d: d[key] = []` on `thoughts_by_step`. -/
def ensureStepKey (d : List (Int × List ThoughtDigest)) (n : Int) :
    List (Int × List ThoughtDigest) :=
  if d.any (fun kv => kv.1 == n) then d else d ++ [(n, [])]

/-- Python `self.thoughts_by_step[n].append(entry)`. -/
def appendDigest (d : List (Int × List ThoughtDigest)) (n : Int)
    (e : ThoughtDigest) : List (Int × List ThoughtDigest) :=
  match d with
  | [] => [(n, [e])]
  | kv :: rest =>
    if kv.1 == n then (kv.1, kv.2 ++ [e]) :: rest else kv :: appendDigest rest n e

/-- Update of `step["thoughts_by_category"]`: ensure the key then append. -/
def appendCategory (d : List (String × List String)) (k v : String) :
    List (String × List String) :=
  match d with
  | [] => [(k, [v])]
  | kv :: rest =>
    if kv.1 == k then (kv.1, kv.2 ++ [v]) :: rest else kv :: appendCategory rest k v

/-- Update of `self.thought_stats`: ensure the key then increment. -/
def bumpStat (d : List (String × Nat)) (k : String) : List (String × Nat) :=
  match d with
  | [] => [(k, 1)]
  | kv :: rest =>
    if kv.1 == k then (kv.1, kv.2 + 1) :: rest else kv :: bumpStat rest k

/-- Update of `llm_stats["models"]`: ensure the key (with zeroed stats) exists. -/
def ensureModel (d : List (String × ModelStats)) (m : String) :
    List (String × ModelStats) :=
  if d.any (fun kv => kv.1 == m) then d else d ++ [(m, ⟨0, 0, 0, 0⟩)]

/-- Update an existing model entry in place. -/
def updateModel (d : List (String × ModelStats)) (m : String)
    (f : ModelStats → ModelStats) : List (String × ModelStats) :=
  match d with
  | [] => []
  | kv :: rest =>
    if kv.1 == m then (kv.1, f kv.2) :: rest else kv :: updateModel rest m f

/-- Look a model entry up. -/
def getModel (d : List (String × ModelStats)) (m : String) : Option ModelStats :=
  (d.find? (fun kv => kv.1 == m)).map (fun kv => kv.2)

/-! ## Tracker operations (`agent_tracker.py`) -/

/-- Synonym table of `_normalize_thought_type`: first category (in registration order) one of
whose variants occurs in the lower-cased label; fallback `"thought"`. -/
def normalizedTypes : List (String × List String) := [
  ("evaluation", ["eval", "evaluation", "avaliação", "avaliacao", "assessment"]),
  ("memory", ["memory", "memória", "memoria", "remembered"]),
  ("next_goal", ["next_goal", "goal", "next", "objetivo", "próximo", "proximo"]),
  ("thought", ["thought", "thinking", "pensamento", "reasoning", "raciocínio", "raciocinio"])
]

/-- Python `_normalize_thought_type(thought_type)`. -/
def normalizeThoughtType (thought_type : String) : String :=
  let lower := strLower thought_type
  match normalizedTypes.find? (fun cat => cat.2.any (fun v => containsSub lower v)) with
  | some cat => cat.1
  | none => "thought"

/-- Python `_create_implicit_step(step_number)`. -/
def createImplicitStep (st : TrackerState) (n : Int) : TrackerState :=
  { st with
    timeline := st.timeline ++
      [{ step_number := n, is_complete := false,
         message := "[Passo " ++ toString n ++ " implícito]",
         thoughts := [], thoughts_by_category := [], llm_events := [],
         actions := [], is_implicit := true }],
    thoughts_by_step := ensureStepKey st.thoughts_by_step n,
    last_step_number := n,
    current_step := some n }

/-- The explicit step record appended by `_process_step` on a step start. -/
def newStepRecord (step_number : Int) (message : String) : Step :=
  { step_number := step_number, is_complete := false,
    message := message, thoughts := [], thoughts_by_category := [],
    llm_events := [], actions := [], is_implicit := false }

/-- Branch of `_process_step`: the state change for a step not yet on the timeline. -/
def appendNewStep (st : TrackerState) (step_number : Int) (message : String) :
    TrackerState :=
  { st with
    timeline := st.timeline ++ [newStepRecord step_number message],
    last_step_number := step_number,
    current_step := some step_number,
    thoughts_by_step := ensureStepKey st.thoughts_by_step step_number }

/-- Branch of `_process_step`: mark an existing step complete. -/
def markStepComplete (st : TrackerState) (step_number : Int) : TrackerState :=
  { st with timeline :=
      updateFirst st.timeline step_number (fun s => { s with is_complete := true }) }

/-- The branch of `_process_step` after the validity check and the implicit
step-1 creation. -/
def processStepCore (st : TrackerState) (step_number : Int)
    (is_start is_complete : Bool) (message : String) : TrackerState :=
  match findStep st.timeline step_number with
  | none =>
    if is_start || !is_complete then appendNewStep st step_number message else st
  | some _ =>
    if is_complete then markStepComplete st step_number else st

/-- Python `_process_step(step_number, pattern_name, message)`. -/
def processStep (st : TrackerState) (step_number : Int) (pattern_name message : String) :
    TrackerState :=
  if step_number ≤ 0 then st
  else
    let st :=
      if st.timeline.isEmpty && step_number > 1 then createImplicitStep st 1 else st
    processStepCore st step_number
      (pattern_name ∈ ["step", "step_alt", "step_numeric", "z2b_step", "step_start"])
      (pattern_name ∈ ["step_complete", "z2b_step_complete"])
      message

/-- Python `_update_thought_stats(category)`. -/
def updateThoughtStats (st : TrackerState) (category : String) : TrackerState :=
  { st with thought_stats := bumpStat st.thought_stats category }

/-- Attach a thought to the (first) step numbered `step_number`: append to
the step's thought list and category map, bump the processed counter, and
record the digest in `thoughts_by_step`. -/
def attachThought (st : TrackerState) (step_number : Int) (thought : Thought) :
    TrackerState :=
  { st with
    timeline := updateFirst st.timeline step_number (fun s =>
      { s with thoughts := s.thoughts ++ [thought],
               thoughts_by_category :=
                 appendCategory s.thoughts_by_category thought.type thought.content }),
    total_thoughts_processed := st.total_thoughts_processed + 1,
    thoughts_by_step :=
      appendDigest (ensureStepKey st.thoughts_by_step step_number) step_number
        ⟨step_number, thought.type, thought.content⟩ }

/-- The step a thought is attributed to: the current step, else the last
known step, else a freshly materialized implicit step 1. -/
def thoughtTarget (st : TrackerState) : TrackerState × Int :=
  match st.current_step with
  | some k => (st, k)
  | none =>
    if st.last_step_number > 0 then (st, st.last_step_number)
    else (createImplicitStep st 1, 1)

/-- The scan phase of `_add_thought_to_step`: dedup against the target step
when it exists (identical content or identical raw source line is skipped),
otherwise materialize the step, then attach. -/
def addThoughtCore (st : TrackerState) (step_number : Int) (thought : Thought)
    (content raw_message : String) : TrackerState :=
  match findStep st.timeline step_number with
  | some stp =>
    if stp.thoughts.any (fun t => t.content == content || t.raw_message == raw_message) then
      st
    else
      attachThought st step_number thought
  | none =>
    attachThought (createImplicitStep st step_number) step_number thought

/-- Python `_add_thought_to_step(thought_type, content, raw_message)`. -/
def addThoughtToStep (st : TrackerState) (thought_type content raw_message : String) :
    TrackerState :=
  let st := { st with total_thoughts_detected := st.total_thoughts_detected + 1 }
  let normalized := normalizeThoughtType thought_type
  let st := updateThoughtStats st normalized
  let target := thoughtTarget st
  addThoughtCore target.1 target.2
    { type := normalized, original_type := thought_type,
      content := content, raw_message := raw_message }
    content raw_message

/-- The llm branches of `_process_llm_data` mutate only `llm_stats` and
`llm_tracking`; this computes their new values (`none` models a
`ValueError` from `int`/`float`, which aborts the handler before any
mutation — the caller catches it). -/
def llmUpdate (stats : LlmStats) (tracking : LlmTracking) (current_step : Option Int)
    (pattern_name : String) (groups : List String) : Option (LlmStats × LlmTracking) :=
  let g := fun (i : Nat) => (groups.get? (i - 1)).getD ""
  if pattern_name == "llm_request" || pattern_name == "llm_request_alt" then
    let model := strTrim (g 1)
    let tokensStr := if pattern_name == "llm_request" then g 3 else g 2
    match parseDigits tokensStr with
    | none => none
    | some prompt_tokens =>
      let tracking :=
        { tracking with
          current_model := some model,
          current_prompt_tokens := prompt_tokens,
          current_step := current_step }
      let stats :=
        { stats with
          total_calls := stats.total_calls + 1,
          total_tokens := stats.total_tokens + prompt_tokens }
      let models := ensureModel stats.models model
      let models := updateModel models model (fun ms =>
        { ms with calls := ms.calls + 1,
                  total_prompt_tokens := ms.total_prompt_tokens + prompt_tokens })
      some ({ stats with models := models }, tracking)
  else if pattern_name == "llm_response" || pattern_name == "llm_response_alt" then
    let model := strTrim (g 1)
    let tokensStr := if pattern_name == "llm_response" then g 3 else g 2
    match parseDigits tokensStr with
    | none => none
    | some completion_tokens =>
      let tracking := { tracking with current_completion_tokens := completion_tokens }
      let stats :=
        { stats with total_tokens := stats.total_tokens + completion_tokens }
      let models := ensureModel stats.models model
      let models := updateModel models model (fun ms =>
        { ms with total_completion_tokens := ms.total_completion_tokens + completion_tokens })
      some ({ stats with models := models }, tracking)
  else if pattern_name == "llm_cost" || pattern_name == "llm_cost_alt" then
    match parseFloatQ (g 1) with
    | none => none
    | some cost =>
      let tracking := { tracking with current_cost := cost }
      let stats := { stats with estimated_cost := qAdd stats.estimated_cost cost }
      -- `if model and model in ...`: Python's empty string is falsy
      match tracking.current_model with
      | some m =>
        if m != "" && stats.models.any (fun kv => kv.1 == m) then
          some ({ stats with
            models := updateModel stats.models m (fun ms =>
              { ms with total_cost := qAdd ms.total_cost cost }) }, tracking)
        else some (stats, tracking)
      | none => some (stats, tracking)
  else some (stats, tracking)

/-- The tail of `_process_llm_data`: attach the event to the current step,
if any. -/
def attachLlmEvent (st : TrackerState) (pattern_name : String) (groups : List String) :
    TrackerState :=
  match st.current_step with
  | some k =>
    { st with timeline := updateFirst st.timeline k (fun s =>
        { s with llm_events := s.llm_events ++ [⟨pattern_name, groups⟩] }) }
  | none => st

/-- Python `_process_llm_data(pattern_name, match, message)`.  `groups` is
`match.groups()`. -/
def processLlmData (st : TrackerState) (pattern_name : String) (groups : List String) :
    TrackerState :=
  match llmUpdate st.llm_stats st.llm_tracking st.current_step pattern_name groups with
  | none => st
  | some res =>
    attachLlmEvent { st with llm_stats := res.1, llm_tracking := res.2 } pattern_name groups

/-- Attach an action to the (first) step numbered `k`. -/
def attachAction (st : TrackerState) (k : Int) (a : ActionRec) : TrackerState :=
  { st with timeline := updateFirst st.timeline k (fun s =>
      { s with actions := s.actions ++ [a] }) }

/-- Python `_create_action_description` feeds only the (unmodelled) timeline
builder; `_process_action(pattern_name, content, message, explicit_type)`
is what mutates state. -/
def processAction (st : TrackerState) (pattern_name content message : String)
    (explicit_type : Option String) : TrackerState :=
  let typed : Json × Json :=
    match explicit_type with
    | some t =>
      (Json.str t,
        match Json.parse content with
        | some j => j
        | none => Json.obj [("text", Json.str content)])
    | none =>
      if pattern_name == "action" || pattern_name == "action_result" then
        (Json.str "generic", Json.obj [("text", Json.str content)])
      else
        match Json.parse content with
        | some j =>
          let t : Json :=
            if pattern_name == "navigation_action" then Json.str "navigation"
            else if pattern_name == "click_action" then Json.str "click"
            else if pattern_name == "extraction_action" then Json.str "extraction"
            else if pattern_name == "form_action" then Json.str "form"
            else if j.hasKey "type" then (j.getKey "type").getD Json.null
            else if j.hasKey "url" then Json.str "navigation"
            else if j.hasKey "selector" || j.hasKey "element" then Json.str "click"
            else if j.hasKey "extract" || j.hasKey "data" then Json.str "extraction"
            else if j.hasKey "form" || j.hasKey "inputs" then Json.str "form"
            else Json.str "unknown"
          (t, j)
        | none => (Json.str "text", Json.obj [("text", Json.str content)])
  let action_type := typed.1
  let action_data := typed.2
  match st.current_step with
  | some k =>
    attachAction st k { type := action_type, data := action_data, raw_message := message }
  | none =>
    { st with unknown_messages := st.unknown_messages ++
        [{ message := message, action_content := some content,
           action_type := some action_type,
           reason := some "Nenhum passo atual definido para associar a ação" }] }

/-- Dispatch of `_process_message`'s `elif` chain on the pattern name.  The
`z2b_step*` names match none of the `startswith` tests and fall through
without any effect (a quirk preserved from the source). -/
def applyHandler (st : TrackerState) (name : String) (re : RE) (caps : Caps)
    (message : String) : TrackerState :=
  let grp := fun (i : Nat) => getGroup caps i
  if strStarts "step" name then
    match parseDigits (grp 1) with
    | some n => processStep st (Int.ofNat n) name message
    | none => st
  else if strStarts "eval" name then
    let content := if countGroups re > 1 then grp 2 else grp 1
    addThoughtToStep st "evaluation" content message
  else if strStarts "memory" name then
    addThoughtToStep st "memory" (grp 1) message
  else if strStarts "next_goal" name || strStarts "goal" name then
    addThoughtToStep st "next_goal" (grp 1) message
  else if strStarts "thought" name then
    let content := if countGroups re > 1 then grp 2 else grp 1
    addThoughtToStep st "thought" content message
  else if strStarts "action" name || strEnds "action" name then
    if name == "action_json_with_type" then
      processAction st name (grp 2) message (some (grp 1))
    else
      processAction st name (grp 1) message none
  else if strStarts "llm" name then
    processLlmData st name ((List.range (countGroups re)).map (fun i => grp (i + 1)))
  else st

/-- One iteration of the pattern loop: run the handler when the pattern
matches, otherwise leave the state unchanged.  The loop does NOT break
after a match: every matching pattern fires. -/
def applyPattern (message : String) (st : TrackerState) (p : String × RE) :
    TrackerState :=
  match reSearch p.2 message with
  | some caps => applyHandler st p.1 p.2 caps message
  | none => st

/-- The full pattern loop of `_process_message`. -/
def applyRules (st : TrackerState) (message : String) : TrackerState :=
  PATTERNS.foldl (applyPattern message) st

/-- Python `if any(keyword in message.lower() for keyword in [...])`. -/
def keywordRelevant (message : String) : Bool :=
  ["thought", "thinking", "step", "memory", "goal", "eval"].any
    (fun k => containsSub (strLower message) k)

/-- Python `_process_message(message)`.  `pick` models `set.pop()`: Python removes
an arbitrary element of `recent_messages`; `pick` chooses which (theorems
constrain it to a valid index). -/
def processMessage (pick : List String → Nat) (st : TrackerState) (message : String) :
    TrackerState :=
  if st.recent_messages.contains message then st
  else
    let st := { st with recent_messages := st.recent_messages ++ [message] }
    let st :=
      if st.recent_messages.length > st.message_cache_size then
        { st with recent_messages := st.recent_messages.eraseIdx (pick st.recent_messages) }
      else st
    let st := applyRules st message
    if PATTERNS.any (fun p => (reSearch p.2 message).isSome) then st
    else if keywordRelevant message then
      { st with unknown_messages := st.unknown_messages ++ [{ message := message }] }
    else st

/-- The state set up by `__init__` followed by `instalar()` (a freshly
started tracker). -/
def initialState (cache_size : Nat) : TrackerState :=
  { timeline := []
    current_step := none
    last_step_number := 0
    recent_messages := []
    message_cache_size := cache_size
    thoughts_by_step := []
    total_thoughts_detected := 0
    total_thoughts_processed := 0
    thought_stats := [("evaluation", 0), ("memory", 0), ("goal", 0), ("thought", 0), ("unknown", 0)]
    llm_stats := { total_calls := 0, total_tokens := 0, estimated_cost := 0, models := [] }
    llm_tracking :=
      { current_model := none, current_prompt_tokens := 0,
        current_completion_tokens := 0, current_cost := 0, current_step := none }
    unknown_messages := [] }

/-! ## Derived timeline measures -/

/-- Number of thoughts of the (first) step record numbered `n` (0 when the
step does not exist). -/
def tCount (tl : List Step) (n : Int) : Nat :=
  ((findStep tl n).map (fun s => s.thoughts.length)).getD 0

/-- Does the (first) step record numbered `n` hold a thought whose raw
source line is `raw`? -/
def hasRawT (tl : List Step) (n : Int) (raw : String) : Bool :=
  ((findStep tl n).map (fun s => s.thoughts.any (fun t => t.raw_message == raw))).getD false

/-- Is the (first) step record numbered `n` marked complete? -/
def doneAt (tl : List Step) (n : Int) : Bool :=
  ((findStep tl n).map (fun s => s.is_complete)).getD false

/-- Relation between timelines before and after an operation, for a fixed
step number `n` and raw source line `raw`:
* the thought count of step `n` grows by at most one;
* if it grew, the step now holds a thought with raw line `raw`;
* if the step already held a thought with raw line `raw`, the count is
  unchanged (the exact-match dedup fires) and that thought remains.
The relation is reflexive and closed under composition, so it transfers
from each handler to a whole processing pass and to repeated passes. -/
structure TInv (n : Int) (raw : String) (tl tl' : List Step) : Prop where
  count_le : tCount tl' n ≤ tCount tl n + 1
  inc_raw : tCount tl' n ≠ tCount tl n → hasRawT tl' n raw = true
  dedup : hasRawT tl n raw = true → tCount tl' n = tCount tl n
  raw_mono : hasRawT tl n raw = true → hasRawT tl' n raw = true

/-- The function applied by `attachThought` to the target step. -/
def attachFun (th : Thought) : Step → Step := fun s =>
  { s with thoughts := s.thoughts ++ [th],
           thoughts_by_category := appendCategory s.thoughts_by_category th.type th.content }

/-- The dedup cache and its capacity, as one view. -/
def cacheView (st : TrackerState) : List String × Nat :=
  (st.recent_messages, st.message_cache_size)

/-- The state of claim C7's scenario: a freshly started tracker fed the
LLM-request line and then the model-less cost line (the eviction choice is
irrelevant: the cache stays far below its capacity). -/
def c7state : TrackerState :=
  processMessage (fun _ => 0)
    (processMessage (fun _ => 0) (initialState 1000)
      "LLM Request: model=gpt-4, prompt=hello, tokens=120")
    "Estimated cost: $0.0036"

/-- The classifier behavior claim C2 describes — act on at most the FIRST
matching rule — defined from the spec's words (this is NOT the code; the
code's loop has no `break`).  Used only to refute the claim. -/
def applyFirstMatchOnlySpec (st : TrackerState) (message : String) : TrackerState :=
  match PATTERNS.find? (fun p => (reSearch p.2 message).isSome) with
  | some p => applyPattern message st p
  | none => st

/-! ## Lemmas about `findStep` and `updateFirst` -/

theorem findStep_append (tl : List Step) (s : Step) (n : Int) :
    findStep (tl ++ [s]) n =
      (findStep tl n).or (if s.step_number == n then some s else none) := by
  simp only [findStep, List.find?_append, List.find?]
  rcases h : s.step_number == n <;> simp [beq_iff_eq] at h <;> simp [h]

theorem findStep_updateFirst_self (tl : List Step) (n : Int) (f : Step → Step)
    (hf : ∀ s, (f s).step_number = s.step_number) :
    findStep (updateFirst tl n f) n = (findStep tl n).map f := by
  induction tl with
  | nil => simp [findStep, updateFirst]
  | cons s rest ih =>
    by_cases h : s.step_number == n
    · simp [findStep, updateFirst, h, List.find?, hf s]
    · simp only [updateFirst, h, if_neg, Bool.false_eq_true, ite_false]
      simp [findStep, List.find?, h] at ih ⊢
      exact ih

theorem findStep_updateFirst_other (tl : List Step) (n m : Int) (f : Step → Step)
    (hm : m ≠ n) (hf : ∀ s, (f s).step_number = s.step_number) :
    findStep (updateFirst tl n f) m = findStep tl m := by
  induction tl with
  | nil => simp [findStep, updateFirst]
  | cons s rest ih =>
    by_cases h : s.step_number == n
    · have h' : s.step_number = n := by simpa using h
      have hsm : (s.step_number == m) = false :=
        beq_eq_false_iff_ne.mpr (by rw [h']; exact fun hh => hm hh.symm)
      simp [findStep, updateFirst, h, List.find?, hf s, hsm]
    · simp only [updateFirst, h, Bool.false_eq_true, ite_false]
      by_cases h2 : s.step_number == m
      · simp [findStep, List.find?, h2]
      · simp [findStep, List.find?, h2] at ih ⊢
        exact ih

/-- Appending a fresh step with no thoughts and `is_complete = false` leaves
all three measures unchanged. -/
theorem tCount_append_fresh (tl : List Step) (s : Step) (n : Int)
    (h : s.thoughts = []) : tCount (tl ++ [s]) n = tCount tl n := by
  simp only [tCount, findStep_append]
  cases hfs : findStep tl n with
  | some stp => simp
  | none =>
    simp only [Option.none_or]
    split <;> simp [h]

theorem hasRawT_append_fresh (tl : List Step) (s : Step) (n : Int) (raw : String)
    (h : s.thoughts = []) : hasRawT (tl ++ [s]) n raw = hasRawT tl n raw := by
  simp only [hasRawT, findStep_append]
  cases hfs : findStep tl n with
  | some stp => simp
  | none =>
    simp only [Option.none_or]
    split <;> simp [h]

theorem doneAt_append_fresh (tl : List Step) (s : Step) (n : Int)
    (h : s.is_complete = false) : doneAt (tl ++ [s]) n = doneAt tl n := by
  simp only [doneAt, findStep_append]
  cases hfs : findStep tl n with
  | some stp => simp
  | none =>
    simp only [Option.none_or]
    split <;> simp [h]

/-- An update that keeps the thought list keeps the thought measures. -/
theorem thought_measures_updateFirst (tl : List Step) (k n : Int) (raw : String)
    (f : Step → Step) (hf : ∀ s, (f s).step_number = s.step_number)
    (hth : ∀ s, (f s).thoughts = s.thoughts) :
    tCount (updateFirst tl k f) n = tCount tl n ∧
    hasRawT (updateFirst tl k f) n raw = hasRawT tl n raw := by
  by_cases hnk : n = k
  · subst hnk
    rw [tCount, hasRawT, findStep_updateFirst_self tl n f hf]
    cases hfs : findStep tl n with
    | none => simp [tCount, hasRawT, hfs]
    | some stp => simp [tCount, hasRawT, hfs, hth]
  · rw [tCount, hasRawT, findStep_updateFirst_other tl k n f hnk hf]
    exact ⟨rfl, rfl⟩

/-- An update that keeps the completion flag keeps `doneAt`. -/
theorem doneAt_updateFirst (tl : List Step) (k n : Int)
    (f : Step → Step) (hf : ∀ s, (f s).step_number = s.step_number)
    (hic : ∀ s, (f s).is_complete = s.is_complete) :
    doneAt (updateFirst tl k f) n = doneAt tl n := by
  by_cases hnk : n = k
  · subst hnk
    rw [doneAt, findStep_updateFirst_self tl n f hf]
    cases hfs : findStep tl n with
    | none => simp [doneAt, hfs]
    | some stp => simp [doneAt, hfs, hic]
  · rw [doneAt, findStep_updateFirst_other tl k n f hnk hf]; rfl

/-! ## Invariants preserved by one processing pass -/

theorem TInv.of_rfl (n : Int) (raw : String) (tl : List Step) : TInv n raw tl tl :=
  ⟨Nat.le_succ _, fun h => absurd rfl h, fun _ => rfl, fun h => h⟩

theorem TInv.of_eq {n : Int} {raw : String} {tl tl' : List Step}
    (h1 : tCount tl' n = tCount tl n)
    (h2 : hasRawT tl' n raw = hasRawT tl n raw) : TInv n raw tl tl' :=
  ⟨h1 ▸ Nat.le_succ _, fun h => absurd h1 h, fun _ => h1, fun h => h2 ▸ h⟩

theorem TInv.comp {n : Int} {raw : String} {a b c : List Step}
    (h1 : TInv n raw a b) (h2 : TInv n raw b c) : TInv n raw a c := by
  by_cases hb : tCount b n = tCount a n
  · by_cases hc : tCount c n = tCount b n
    · exact ⟨by rw [hc, hb]; exact Nat.le_succ _,
        fun h => h2.inc_raw (fun hh => h (hh.trans hb)),
        fun h => (h2.dedup (h1.raw_mono h)).trans hb,
        fun h => h2.raw_mono (h1.raw_mono h)⟩
    · have hr : hasRawT c n raw = true := h2.inc_raw hc
      refine ⟨?_, fun _ => hr, fun h => ?_, fun _ => hr⟩
      · calc tCount c n ≤ tCount b n + 1 := h2.count_le
          _ = tCount a n + 1 := by rw [hb]
      · exact absurd ((h2.dedup (h1.raw_mono h)).trans hb) (fun hh => hc (hh.trans hb.symm))
  · have hr : hasRawT b n raw = true := h1.inc_raw hb
    have hc : tCount c n = tCount b n := h2.dedup hr
    have hrc : hasRawT c n raw = true := h2.raw_mono hr
    refine ⟨?_, fun _ => hrc, fun h => absurd (h1.dedup h) hb, fun _ => hrc⟩
    calc tCount c n = tCount b n := hc
      _ ≤ tCount a n + 1 := h1.count_le

/-- Marking a step complete cannot unmark any step. -/
theorem doneAt_markComplete (tl : List Step) (k n : Int)
    (h : doneAt tl n = true) :
    doneAt (updateFirst tl k (fun s => { s with is_complete := true })) n = true := by
  by_cases hnk : n = k
  · subst hnk
    rw [doneAt, findStep_updateFirst_self tl n
      (fun s => { s with is_complete := true }) (fun s => rfl)]
    cases hfs : findStep tl n with
    | none => rw [doneAt, hfs] at h; exact absurd h (by simp)
    | some stp => simp
  · rwa [doneAt, findStep_updateFirst_other tl k n
      (fun s => { s with is_complete := true }) hnk (fun s => rfl)]

/-- Lemma: `_create_implicit_step` appends a fresh step: all measures unchanged. -/
theorem createImplicitStep_measures (st : TrackerState) (k n : Int) (raw : String) :
    tCount (createImplicitStep st k).timeline n = tCount st.timeline n ∧
    hasRawT (createImplicitStep st k).timeline n raw = hasRawT st.timeline n raw ∧
    doneAt (createImplicitStep st k).timeline n = doneAt st.timeline n := by
  simp only [createImplicitStep]
  exact ⟨tCount_append_fresh _ _ _ rfl, hasRawT_append_fresh _ _ _ _ rfl,
    doneAt_append_fresh _ _ _ rfl⟩

/-- Lemma: `processStepCore` never touches any step's thought list, and never
clears a completion flag. -/
theorem processStepCore_measures (st : TrackerState) (sn : Int)
    (is_start is_complete : Bool) (msg : String) (n : Int) (raw : String) :
    tCount (processStepCore st sn is_start is_complete msg).timeline n = tCount st.timeline n ∧
    hasRawT (processStepCore st sn is_start is_complete msg).timeline n raw = hasRawT st.timeline n raw ∧
    (doneAt st.timeline n = true →
      doneAt (processStepCore st sn is_start is_complete msg).timeline n = true) := by
  unfold processStepCore
  cases hfs : findStep st.timeline sn with
  | none =>
    by_cases hst : (is_start || !is_complete) = true
    · rw [if_pos hst]
      simp only [appendNewStep]
      exact ⟨tCount_append_fresh _ _ _ rfl, hasRawT_append_fresh _ _ _ _ rfl,
        fun h => by rw [doneAt_append_fresh _ _ _ rfl]; exact h⟩
    · rw [if_neg hst]
      exact ⟨rfl, rfl, fun h => h⟩
  | some stp =>
    by_cases hic : is_complete = true
    · rw [if_pos hic]
      simp only [markStepComplete]
      obtain ⟨m1, m2⟩ := thought_measures_updateFirst st.timeline sn n raw
        (fun s => { s with is_complete := true }) (fun _ => rfl) (fun _ => rfl)
      exact ⟨m1, m2, doneAt_markComplete st.timeline sn n⟩
    · rw [if_neg hic]
      exact ⟨rfl, rfl, fun h => h⟩

/-- Lemma: `_process_step` never touches any step's thought list, and never clears
a completion flag. -/
theorem processStep_measures (st : TrackerState) (sn : Int) (pn msg : String)
    (n : Int) (raw : String) :
    tCount (processStep st sn pn msg).timeline n = tCount st.timeline n ∧
    hasRawT (processStep st sn pn msg).timeline n raw = hasRawT st.timeline n raw ∧
    (doneAt st.timeline n = true → doneAt (processStep st sn pn msg).timeline n = true) := by
  unfold processStep
  split
  · exact ⟨rfl, rfl, fun h => h⟩
  · split
    · obtain ⟨c1, c2, c3⟩ := createImplicitStep_measures st 1 n raw
      obtain ⟨p1, p2, p3⟩ := processStepCore_measures (createImplicitStep st 1) sn
        (pn ∈ ["step", "step_alt", "step_numeric", "z2b_step", "step_start"])
        (pn ∈ ["step_complete", "z2b_step_complete"]) msg n raw
      exact ⟨p1.trans c1, p2.trans c2, fun h => p3 (c3.symm ▸ h)⟩
    · exact processStepCore_measures st sn _ _ msg n raw

/-- Appending a record for an absent step number makes it findable. -/
theorem findStep_append_self (tl : List Step) (s : Step)
    (h : findStep tl s.step_number = none) :
    findStep (tl ++ [s]) s.step_number = some s := by
  rw [findStep_append, h]; simp

theorem attachThought_timeline (st : TrackerState) (k : Int) (th : Thought) :
    (attachThought st k th).timeline = updateFirst st.timeline k (attachFun th) := rfl

/-- Attaching to an existing step: the thought count of that step grows by
exactly one and the step now holds the new thought's raw line. -/
theorem attachThought_self (st : TrackerState) (k : Int) (th : Thought) (stp : Step)
    (hfs : findStep st.timeline k = some stp) :
    tCount (attachThought st k th).timeline k = tCount st.timeline k + 1 ∧
    hasRawT (attachThought st k th).timeline k th.raw_message = true := by
  rw [tCount, hasRawT, attachThought_timeline,
    findStep_updateFirst_self st.timeline k (attachFun th) (fun s => rfl), hfs]
  constructor
  · simp [tCount, hfs, attachFun]
  · simp [attachFun]

theorem attachThought_other (st : TrackerState) (k n : Int) (th : Thought)
    (raw : String) (hnk : n ≠ k) :
    tCount (attachThought st k th).timeline n = tCount st.timeline n ∧
    hasRawT (attachThought st k th).timeline n raw = hasRawT st.timeline n raw := by
  rw [tCount, hasRawT, attachThought_timeline,
    findStep_updateFirst_other st.timeline k n (attachFun th) hnk (fun s => rfl)]
  exact ⟨rfl, rfl⟩

theorem attachThought_raw_mono (st : TrackerState) (k n : Int) (th : Thought)
    (raw : String) (h : hasRawT st.timeline n raw = true) :
    hasRawT (attachThought st k th).timeline n raw = true := by
  by_cases hnk : n = k
  · subst hnk
    rw [hasRawT, attachThought_timeline,
      findStep_updateFirst_self st.timeline n (attachFun th) (fun s => rfl)]
    rw [hasRawT] at h
    cases hfs : findStep st.timeline n with
    | none => rw [hfs] at h; exact absurd h (by simp)
    | some stp =>
      rw [hfs] at h
      simp only [Option.map_some', Option.getD_some] at h
      simp [attachFun, h]
  · rw [(attachThought_other st k n th raw hnk).2]
    exact h

theorem attachThought_doneAt (st : TrackerState) (k n : Int) (th : Thought) :
    doneAt (attachThought st k th).timeline n = doneAt st.timeline n := by
  rw [attachThought_timeline]
  exact doneAt_updateFirst st.timeline k n (attachFun th) (fun s => rfl) (fun s => rfl)

/-- The dedup-or-attach block of `_add_thought_to_step` satisfies the
thought invariant for every step number, and never changes a completion
flag. -/
theorem addThoughtCore_TInv (st : TrackerState) (k : Int) (th : Thought)
    (c raw : String) (hraw : th.raw_message = raw) (n : Int) :
    TInv n raw st.timeline (addThoughtCore st k th c raw).timeline ∧
    doneAt (addThoughtCore st k th c raw).timeline n = doneAt st.timeline n := by
  unfold addThoughtCore
  split
  · rename_i stp hfs
    by_cases hdup : stp.thoughts.any (fun t => t.content == c || t.raw_message == raw) = true
    · rw [if_pos hdup]
      exact ⟨TInv.of_rfl n raw st.timeline, rfl⟩
    · rw [if_neg hdup]
      by_cases hnk : n = k
      · subst hnk
        obtain ⟨h1, h2⟩ := attachThought_self st n th stp hfs
        have hnoraw : hasRawT st.timeline n raw = false := by
          rw [hasRawT, hfs]
          simp only [Option.map_some', Option.getD_some]
          by_contra hcon
          rw [Bool.not_eq_false] at hcon
          refine hdup ?_
          rw [List.any_eq_true] at hcon ⊢
          obtain ⟨t, ht, hteq⟩ := hcon
          exact ⟨t, ht, by simp [hteq]⟩
        refine ⟨⟨by rw [h1], fun _ => hraw ▸ h2, fun hcon => ?_, fun hcon => ?_⟩, ?_⟩
        · rw [hnoraw] at hcon; exact absurd hcon (by simp)
        · rw [hnoraw] at hcon; exact absurd hcon (by simp)
        · exact attachThought_doneAt st n n th
      · obtain ⟨h1, h2⟩ := attachThought_other st k n th raw hnk
        exact ⟨TInv.of_eq h1 h2, attachThought_doneAt st k n th⟩
  · rename_i hfs
    by_cases hnk : n = k
    · subst hnk
      have hfs2 : findStep (createImplicitStep st n).timeline n =
          some { step_number := n, is_complete := false,
                 message := "[Passo " ++ toString n ++ " implícito]",
                 thoughts := [], thoughts_by_category := [], llm_events := [],
                 actions := [], is_implicit := true } := by
        simp only [createImplicitStep]
        exact findStep_append_self st.timeline _ hfs
      obtain ⟨h1, h2⟩ := attachThought_self (createImplicitStep st n) n th _ hfs2
      obtain ⟨c1, c2, c3⟩ := createImplicitStep_measures st n n raw
      have hzero : tCount st.timeline n = 0 := by rw [tCount, hfs]; rfl
      have hnoraw : hasRawT st.timeline n raw = false := by rw [hasRawT, hfs]; rfl
      refine ⟨⟨?_, fun _ => hraw ▸ h2, fun hcon => ?_, fun hcon => ?_⟩, ?_⟩
      · rw [h1, c1]
      · rw [hnoraw] at hcon; exact absurd hcon (by simp)
      · rw [hnoraw] at hcon; exact absurd hcon (by simp)
      · rw [attachThought_doneAt (createImplicitStep st n) n n th, c3]
    · obtain ⟨h1, h2⟩ := attachThought_other (createImplicitStep st k) k n th raw hnk
      obtain ⟨c1, c2, c3⟩ := createImplicitStep_measures st k n raw
      refine ⟨TInv.of_eq (h1.trans c1) (h2.trans c2), ?_⟩
      rw [attachThought_doneAt (createImplicitStep st k) k n th, c3]

/-- Lemma: `thoughtTarget` either keeps the state or materializes a fresh implicit
step: all measures unchanged. -/
theorem thoughtTarget_measures (st : TrackerState) (n : Int) (raw : String) :
    tCount (thoughtTarget st).1.timeline n = tCount st.timeline n ∧
    hasRawT (thoughtTarget st).1.timeline n raw = hasRawT st.timeline n raw ∧
    doneAt (thoughtTarget st).1.timeline n = doneAt st.timeline n := by
  unfold thoughtTarget
  cases st.current_step with
  | some k => exact ⟨rfl, rfl, rfl⟩
  | none =>
    by_cases hl : st.last_step_number > 0
    · rw [if_pos hl]; exact ⟨rfl, rfl, rfl⟩
    · rw [if_neg hl]; exact createImplicitStep_measures st 1 n raw

/-- Lemma: `_add_thought_to_step` satisfies the thought invariant for its raw line
argument, at every step number, and never changes a completion flag. -/
theorem addThoughtToStep_TInv (st : TrackerState) (tt c raw : String) (n : Int) :
    TInv n raw st.timeline (addThoughtToStep st tt c raw).timeline ∧
    doneAt (addThoughtToStep st tt c raw).timeline n = doneAt st.timeline n := by
  unfold addThoughtToStep
  have hst2 : (updateThoughtStats
      { st with total_thoughts_detected := st.total_thoughts_detected + 1 }
      (normalizeThoughtType tt)).timeline = st.timeline := rfl
  obtain ⟨t1, t2, t3⟩ := thoughtTarget_measures (updateThoughtStats
    { st with total_thoughts_detected := st.total_thoughts_detected + 1 }
    (normalizeThoughtType tt)) n raw
  rw [hst2] at t1 t2 t3
  obtain ⟨inv, hdone⟩ := addThoughtCore_TInv _ _
    { type := normalizeThoughtType tt, original_type := tt,
      content := c, raw_message := raw } c raw rfl n
  refine ⟨⟨?_, ?_, ?_, ?_⟩, ?_⟩
  · calc tCount (addThoughtCore _ _ _ c raw).timeline n
      ≤ _ + 1 := inv.count_le
      _ = tCount st.timeline n + 1 := by rw [t1]
  · intro h; exact inv.inc_raw (fun hh => h (hh.trans t1))
  · intro h; exact (inv.dedup (t2.symm ▸ h)).trans t1
  · intro h; exact inv.raw_mono (t2.symm ▸ h)
  · exact hdone.trans t3

/-- Attaching an LLM event touches neither thoughts nor completion flags. -/
theorem attachLlmEvent_measures (st : TrackerState) (pn : String)
    (groups : List String) (n : Int) (raw : String) :
    tCount (attachLlmEvent st pn groups).timeline n = tCount st.timeline n ∧
    hasRawT (attachLlmEvent st pn groups).timeline n raw = hasRawT st.timeline n raw ∧
    doneAt (attachLlmEvent st pn groups).timeline n = doneAt st.timeline n := by
  unfold attachLlmEvent
  split
  · rename_i k hcs
    obtain ⟨h1, h2⟩ := thought_measures_updateFirst st.timeline k n raw
      (fun s => { s with llm_events := s.llm_events ++ [⟨pn, groups⟩] })
      (fun s => rfl) (fun s => rfl)
    exact ⟨h1, h2, doneAt_updateFirst st.timeline k n _ (fun s => rfl) (fun s => rfl)⟩
  · exact ⟨rfl, rfl, rfl⟩

/-- Lemma: `_process_llm_data` touches neither thoughts nor completion flags. -/
theorem processLlmData_measures (st : TrackerState) (pn : String)
    (groups : List String) (n : Int) (raw : String) :
    tCount (processLlmData st pn groups).timeline n = tCount st.timeline n ∧
    hasRawT (processLlmData st pn groups).timeline n raw = hasRawT st.timeline n raw ∧
    doneAt (processLlmData st pn groups).timeline n = doneAt st.timeline n := by
  unfold processLlmData
  split
  · exact ⟨rfl, rfl, rfl⟩
  · rename_i res hres
    exact attachLlmEvent_measures
      { st with llm_stats := res.1, llm_tracking := res.2 } pn groups n raw

/-- Lemma: `_process_action` touches neither thoughts nor completion flags. -/
theorem processAction_measures (st : TrackerState) (pn content msg : String)
    (explicit : Option String) (n : Int) (raw : String) :
    tCount (processAction st pn content msg explicit).timeline n = tCount st.timeline n ∧
    hasRawT (processAction st pn content msg explicit).timeline n raw = hasRawT st.timeline n raw ∧
    doneAt (processAction st pn content msg explicit).timeline n = doneAt st.timeline n := by
  unfold processAction
  dsimp only
  split
  · rename_i k hcs
    unfold attachAction
    refine ⟨?_, ?_, ?_⟩
    · exact (thought_measures_updateFirst st.timeline k n raw
        (fun s => { s with actions := s.actions ++ [_] }) (fun s => rfl) (fun s => rfl)).1
    · exact (thought_measures_updateFirst st.timeline k n raw
        (fun s => { s with actions := s.actions ++ [_] }) (fun s => rfl) (fun s => rfl)).2
    · exact doneAt_updateFirst st.timeline k n
        (fun s => { s with actions := s.actions ++ [_] }) (fun s => rfl) (fun s => rfl)
  · exact ⟨rfl, rfl, rfl⟩

/-- Every pattern handler satisfies the thought invariant for the processed
line, and never clears a completion flag. -/
theorem applyHandler_TInv (st : TrackerState) (name : String) (re : RE)
    (caps : Caps) (msg : String) (n : Int) :
    TInv n msg st.timeline (applyHandler st name re caps msg).timeline ∧
    (doneAt st.timeline n = true →
      doneAt (applyHandler st name re caps msg).timeline n = true) := by
  unfold applyHandler
  dsimp only
  split
  · -- step handlers
    split
    · rename_i k hp
      obtain ⟨h1, h2, h3⟩ := processStep_measures st (Int.ofNat k) name msg n msg
      exact ⟨TInv.of_eq h1 h2, h3⟩
    · exact ⟨TInv.of_rfl n msg st.timeline, fun h => h⟩
  · split
    · -- eval
      obtain ⟨inv, hd⟩ := addThoughtToStep_TInv st "evaluation" _ msg n
      exact ⟨inv, fun h => hd ▸ h⟩
    · split
      · -- memory
        obtain ⟨inv, hd⟩ := addThoughtToStep_TInv st "memory" _ msg n
        exact ⟨inv, fun h => hd ▸ h⟩
      · split
        · -- next_goal
          obtain ⟨inv, hd⟩ := addThoughtToStep_TInv st "next_goal" _ msg n
          exact ⟨inv, fun h => hd ▸ h⟩
        · split
          · -- thought
            obtain ⟨inv, hd⟩ := addThoughtToStep_TInv st "thought" _ msg n
            exact ⟨inv, fun h => hd ▸ h⟩
          · split
            · -- action
              split
              · obtain ⟨h1, h2, h3⟩ := processAction_measures st name _ msg _ n msg
                exact ⟨TInv.of_eq h1 h2, fun h => h3 ▸ h⟩
              · obtain ⟨h1, h2, h3⟩ := processAction_measures st name _ msg _ n msg
                exact ⟨TInv.of_eq h1 h2, fun h => h3 ▸ h⟩
            · split
              · -- llm
                obtain ⟨h1, h2, h3⟩ := processLlmData_measures st name _ n msg
                exact ⟨TInv.of_eq h1 h2, fun h => h3 ▸ h⟩
              · exact ⟨TInv.of_rfl n msg st.timeline, fun h => h⟩

/-- One iteration of the pattern loop satisfies the invariants. -/
theorem applyPattern_TInv (msg : String) (st : TrackerState) (p : String × RE)
    (n : Int) :
    TInv n msg st.timeline (applyPattern msg st p).timeline ∧
    (doneAt st.timeline n = true →
      doneAt (applyPattern msg st p).timeline n = true) := by
  unfold applyPattern
  split
  · rename_i caps hcaps
    exact applyHandler_TInv st p.1 p.2 caps msg n
  · exact ⟨TInv.of_rfl n msg st.timeline, fun h => h⟩

/-- The whole pattern loop satisfies the invariants (fold composition). -/
theorem foldPatterns_TInv (msg : String) (ps : List (String × RE))
    (st : TrackerState) (n : Int) :
    TInv n msg st.timeline (ps.foldl (applyPattern msg) st).timeline ∧
    (doneAt st.timeline n = true →
      doneAt (ps.foldl (applyPattern msg) st).timeline n = true) := by
  induction ps generalizing st with
  | nil => exact ⟨TInv.of_rfl n msg st.timeline, fun h => h⟩
  | cons p rest ih =>
    obtain ⟨inv1, hd1⟩ := applyPattern_TInv msg st p n
    obtain ⟨inv2, hd2⟩ := ih (applyPattern msg st p)
    exact ⟨inv1.comp inv2, fun h => hd2 (hd1 h)⟩

/-- Lemma: `_process_message` satisfies the thought invariant for the processed
line, and never clears a completion flag. -/
theorem processMessage_TInv (pick : List String → Nat) (st : TrackerState)
    (msg : String) (n : Int) :
    TInv n msg st.timeline (processMessage pick st msg).timeline ∧
    (doneAt st.timeline n = true →
      doneAt (processMessage pick st msg).timeline n = true) := by
  unfold processMessage
  split
  · exact ⟨TInv.of_rfl n msg st.timeline, fun h => h⟩
  · rename_i hmem
    set st1 := { st with recent_messages := st.recent_messages ++ [msg] } with hst1
    set st2 := if st1.recent_messages.length > st1.message_cache_size then
        { st1 with recent_messages := st1.recent_messages.eraseIdx (pick st1.recent_messages) }
      else st1 with hst2
    have htl : st2.timeline = st.timeline := by
      rw [hst2]; split <;> rfl
    obtain ⟨inv, hd⟩ := foldPatterns_TInv msg PATTERNS st2 n
    rw [htl] at inv hd
    have hfin : ∀ st3 : TrackerState,
        TInv n msg st.timeline st3.timeline →
        (doneAt st.timeline n = true → doneAt st3.timeline n = true) →
        TInv n msg st.timeline
          (if PATTERNS.any (fun p => (reSearch p.2 msg).isSome) then st3
            else if keywordRelevant msg then
              { st3 with unknown_messages := st3.unknown_messages ++ [{ message := msg }] }
            else st3).timeline ∧
        (doneAt st.timeline n = true → doneAt
          (if PATTERNS.any (fun p => (reSearch p.2 msg).isSome) then st3
            else if keywordRelevant msg then
              { st3 with unknown_messages := st3.unknown_messages ++ [{ message := msg }] }
            else st3).timeline n = true) := by
      intro st3 hinv hdone
      split
      · exact ⟨hinv, hdone⟩
      · split
        · exact ⟨hinv, hdone⟩
        · exact ⟨hinv, hdone⟩
    exact hfin _ inv hd

/-! ## Further helper lemmas -/

/-- Lemma: `qAdd` really is rational addition. -/
theorem qAdd_eq (a b : ℚ) : qAdd a b = a + b := by
  unfold qAdd
  rw [Rat.mkRat_eq_div]
  have ha : (a.den : ℚ) ≠ 0 := Nat.cast_ne_zero.mpr a.den_nz
  have hb : (b.den : ℚ) ≠ 0 := Nat.cast_ne_zero.mpr b.den_nz
  conv_rhs => rw [← Rat.num_div_den a, ← Rat.num_div_den b]
  rw [div_add_div _ _ ha hb]
  push_cast
  ring_nf

/-- The pattern loop is a fold of the handlers over exactly the matching
rules, in registration order (non-matching rules are skipped as identity
steps). -/
theorem applyRules_filter (st : TrackerState) (msg : String) :
    applyRules st msg =
      (PATTERNS.filter (fun p => (reSearch p.2 msg).isSome)).foldl (applyPattern msg) st := by
  unfold applyRules
  generalize PATTERNS = ps
  induction ps generalizing st with
  | nil => rfl
  | cons p rest ih =>
    rw [List.foldl_cons]
    cases hp : (reSearch p.2 msg).isSome with
    | true =>
      rw [show (p :: rest).filter (fun q => (reSearch q.2 msg).isSome) =
          p :: rest.filter (fun q => (reSearch q.2 msg).isSome) by
        simp [List.filter_cons, hp]]
      rw [List.foldl_cons]
      exact ih _
    | false =>
      have hid : applyPattern msg st p = st := by
        unfold applyPattern
        cases hs : reSearch p.2 msg with
        | none => rfl
        | some caps => rw [hs] at hp; simp at hp
      rw [show (p :: rest).filter (fun q => (reSearch q.2 msg).isSome) =
          rest.filter (fun q => (reSearch q.2 msg).isSome) by
        simp [List.filter_cons, hp]]
      rw [hid]
      exact ih st

theorem processStepCore_cache (st : TrackerState) (sn : Int)
    (is_start is_complete : Bool) (msg : String) :
    cacheView (processStepCore st sn is_start is_complete msg) = cacheView st := by
  unfold processStepCore appendNewStep markStepComplete
  (repeat' split) <;> rfl

theorem processStep_cache (st : TrackerState) (sn : Int) (pn msg : String) :
    cacheView (processStep st sn pn msg) = cacheView st := by
  unfold processStep
  split
  · rfl
  · split
    · exact processStepCore_cache (createImplicitStep st 1) sn _ _ msg
    · exact processStepCore_cache st sn _ _ msg

theorem addThoughtCore_cache (st : TrackerState) (k : Int) (th : Thought)
    (c raw : String) :
    cacheView (addThoughtCore st k th c raw) = cacheView st := by
  unfold addThoughtCore attachThought createImplicitStep
  (repeat' split) <;> rfl

theorem addThoughtToStep_cache (st : TrackerState) (tt c raw : String) :
    cacheView (addThoughtToStep st tt c raw) = cacheView st := by
  unfold addThoughtToStep
  have h1 : cacheView (thoughtTarget (updateThoughtStats
      { st with total_thoughts_detected := st.total_thoughts_detected + 1 }
      (normalizeThoughtType tt))).1 = cacheView st := by
    unfold thoughtTarget updateThoughtStats createImplicitStep
    (repeat' split) <;> rfl
  rw [addThoughtCore_cache]
  exact h1

theorem processLlmData_cache (st : TrackerState) (pn : String) (groups : List String) :
    cacheView (processLlmData st pn groups) = cacheView st := by
  unfold processLlmData
  split
  · rfl
  · unfold attachLlmEvent
    split <;> rfl

theorem processAction_cache (st : TrackerState) (pn content msg : String)
    (explicit : Option String) :
    cacheView (processAction st pn content msg explicit) = cacheView st := by
  unfold processAction
  cases hcs : st.current_step with
  | some k => rfl
  | none => rfl

/-- No handler ever touches the dedup cache or its capacity. -/
theorem applyHandler_cache (st : TrackerState) (name : String) (re : RE)
    (caps : Caps) (msg : String) :
    cacheView (applyHandler st name re caps msg) = cacheView st := by
  unfold applyHandler
  dsimp only
  (repeat' split) <;>
    first
      | rfl
      | apply processStep_cache
      | apply addThoughtToStep_cache
      | apply processAction_cache
      | apply processLlmData_cache

/-- The pattern loop never touches the dedup cache or its capacity. -/
theorem applyRules_cache (st : TrackerState) (msg : String) :
    cacheView (applyRules st msg) = cacheView st := by
  unfold applyRules
  generalize PATTERNS = ps
  induction ps generalizing st with
  | nil => rfl
  | cons p rest ih =>
    rw [List.foldl_cons]
    have hp : cacheView (applyPattern msg st p) = cacheView st := by
      unfold applyPattern
      split
      · exact applyHandler_cache st p.1 p.2 _ msg
      · rfl
    exact (ih (applyPattern msg st p)).trans hp

/-- The dedup cache after processing a line not already cached: the line is
added, and one `pick`-chosen entry is removed if the capacity was exceeded. -/
theorem processMessage_cache (pick : List String → Nat) (st : TrackerState)
    (msg : String) (hnew : st.recent_messages.contains msg = false) :
    (processMessage pick st msg).recent_messages =
      if (st.recent_messages ++ [msg]).length > st.message_cache_size then
        (st.recent_messages ++ [msg]).eraseIdx (pick (st.recent_messages ++ [msg]))
      else st.recent_messages ++ [msg] := by
  unfold processMessage
  rw [if_neg (by rw [hnew]; exact Bool.false_ne_true)]
  set st1 := { st with recent_messages := st.recent_messages ++ [msg] } with hst1
  set st2 := if st1.recent_messages.length > st1.message_cache_size then
      { st1 with recent_messages := st1.recent_messages.eraseIdx (pick st1.recent_messages) }
    else st1 with hst2
  have h2 : st2.recent_messages =
      if (st.recent_messages ++ [msg]).length > st.message_cache_size then
        (st.recent_messages ++ [msg]).eraseIdx (pick (st.recent_messages ++ [msg]))
      else st.recent_messages ++ [msg] := by
    rw [hst2]; split <;> rfl
  have ha : (applyRules st2 msg).recent_messages = st2.recent_messages :=
    congrArg Prod.fst (applyRules_cache st2 msg)
  by_cases hm : (PATTERNS.any (fun p => (reSearch p.2 msg).isSome)) = true
  · rw [if_pos hm, ha, h2]
  · rw [if_neg hm]
    by_cases hk : keywordRelevant msg = true
    · rw [if_pos hk]
      show (applyRules st2 msg).recent_messages = _
      rw [ha, h2]
    · rw [if_neg hk, ha, h2]

/-! ## The claims -/

/-- Claim C5: thought-category normalization is a total function whose
result is always one of the four canonical values `evaluation`, `memory`,
`next_goal`, `thought`; every documented synonym of "evaluation" (`eval`,
`evaluation`, `avaliação`, `avaliacao`, `assessment`) normalizes to
`evaluation`; and a label matching none of the documented synonym lists
normalizes to `thought`. -/
theorem C5_normalization_total_and_stable :
    (∀ s, normalizeThoughtType s = "evaluation" ∨ normalizeThoughtType s = "memory" ∨
      normalizeThoughtType s = "next_goal" ∨ normalizeThoughtType s = "thought") ∧
    normalizeThoughtType "eval" = "evaluation" ∧
    normalizeThoughtType "evaluation" = "evaluation" ∧
    normalizeThoughtType "avaliação" = "evaluation" ∧
    normalizeThoughtType "avaliacao" = "evaluation" ∧
    normalizeThoughtType "assessment" = "evaluation" ∧
    (∀ s, normalizedTypes.all
        (fun cat => !cat.2.any (fun v => containsSub (strLower s) v)) = true →
      normalizeThoughtType s = "thought") := by
  refine ⟨?_, by decide, by decide, by decide, by decide, by decide, ?_⟩
  · intro s
    unfold normalizeThoughtType
    dsimp only
    cases hf : normalizedTypes.find?
        (fun cat => cat.2.any (fun v => containsSub (strLower s) v)) with
    | none => exact Or.inr (Or.inr (Or.inr rfl))
    | some cat =>
      have hmem := List.mem_of_find?_eq_some hf
      simp only [normalizedTypes, List.mem_cons, List.not_mem_nil, or_false] at hmem
      rcases hmem with h | h | h | h <;> subst h
      · exact Or.inl rfl
      · exact Or.inr (Or.inl rfl)
      · exact Or.inr (Or.inr (Or.inl rfl))
      · exact Or.inr (Or.inr (Or.inr rfl))
  · intro s hall
    unfold normalizeThoughtType
    dsimp only
    have hnone : normalizedTypes.find?
        (fun cat => cat.2.any (fun v => containsSub (strLower s) v)) = none := by
      rw [List.find?_eq_none]
      intro x hx
      have hx2 := List.all_eq_true.mp hall x hx
      simp only [Bool.not_eq_true'] at hx2
      simp [hx2]
    rw [hnone]

/-- Claim C5, witness: a label matching no documented synonym list
normalizes to `thought`. -/
theorem C5_witness : normalizeThoughtType "xyz" = "thought" :=
  (C5_normalization_total_and_stable.2.2.2.2.2.2) "xyz" (by decide)

/-- Claim C8: a step-reference line whose captured number is `≤ 0` is
rejected: `_process_step` performs no state mutation at all (the warning it
logs is I/O and outside the state model). -/
theorem C8_nonpositive_step_rejected (st : TrackerState) (sn : Int)
    (pn msg : String) (h : sn ≤ 0) : processStep st sn pn msg = st := by
  unfold processStep
  rw [if_pos h]

/-- Claim C8, witness: `"Step 0:"`-style references leave a fresh tracker
unchanged. -/
theorem C8_witness :
    processStep (initialState 1000) 0 "step_alt" "Step 0: boot" = initialState 1000 :=
  C8_nonpositive_step_rejected (initialState 1000) 0 "step_alt" "Step 0: boot" (by decide)

/-- Claim C2, counterexample: the line `"🧠 Memory: saw 3 items"` matches
both the `memory` and the `memory_alt` rules, and the pattern loop fires
BOTH handlers (the thought-detected counter rises to 2; a first-match-only
classifier would leave it at 1): the loop has no `break`, so processing is
not limited to the earliest matching rule. -/
theorem C2_counterexample :
    (PATTERNS.filter
        (fun p => (reSearch p.2 "🧠 Memory: saw 3 items").isSome)).map Prod.fst
      = ["memory", "memory_alt"] ∧
    (applyRules (initialState 1000) "🧠 Memory: saw 3 items").total_thoughts_detected = 2 ∧
    (applyFirstMatchOnlySpec (initialState 1000) "🧠 Memory: saw 3 items").total_thoughts_detected = 1 ∧
    applyRules (initialState 1000) "🧠 Memory: saw 3 items" ≠
      applyFirstMatchOnlySpec (initialState 1000) "🧠 Memory: saw 3 items" := by
  refine ⟨by decide, by decide, by decide, fun h => ?_⟩
  have h2 := congrArg TrackerState.total_thoughts_detected h
  rw [show (applyRules (initialState 1000) "🧠 Memory: saw 3 items").total_thoughts_detected = 2
      from by decide,
    show (applyFirstMatchOnlySpec (initialState 1000) "🧠 Memory: saw 3 items").total_thoughts_detected = 1
      from by decide] at h2
  exact absurd h2 (by decide)

/-- Claim C2 (amended): the classifier applies the pattern rules in
registration order and acts on EVERY rule whose matcher succeeds — the
pattern loop is exactly a fold of the handlers over the matching rules in
registration order; non-matching rules have no effect. -/
theorem C2_amended_every_match_fires (st : TrackerState) (msg : String) :
    applyRules st msg =
      (PATTERNS.filter (fun p => (reSearch p.2 msg).isSome)).foldl (applyPattern msg) st :=
  applyRules_filter st msg

/-- Claim C3: once a step's completed flag is true, no later processed line
(in particular no step-start line with the same number) ever resets it:
completion is monotone over any suffix of the line stream. -/
theorem C3_completed_monotone (pick : List String → Nat) (st : TrackerState)
    (msgs : List String) (n : Int) (h : doneAt st.timeline n = true) :
    doneAt ((msgs.foldl (processMessage pick) st).timeline) n = true := by
  induction msgs generalizing st with
  | nil => exact h
  | cons m rest ih => exact ih _ ((processMessage_TInv pick st m n).2 h)

/-- Claim C3, witness: step 1 completed by `"Step 1 completed"` stays
completed after a later `"📍 Step 1"` start line and an unrelated thought
line. -/
theorem C3_witness :
    doneAt ((["📍 Step 1", "🧠 Memory: revisit"].foldl
      (processMessage (fun _ => 0))
      (processMessage (fun _ => 0)
        (processMessage (fun _ => 0) (initialState 1000) "📍 Step 1")
        "Step 1 completed")).timeline) 1 = true :=
  C3_completed_monotone (fun _ => 0) _ ["📍 Step 1", "🧠 Memory: revisit"] 1 (by decide)

/-- Claim C6: replaying an identical raw line twice appends at most one
thought record to any step — for every state, every line and every step
number, the step's thought count after processing the line twice exceeds
the original count by at most one (the repeat is suppressed by the
recent-message cache or by the exact-match dedup on content / raw line). -/
theorem C6_replay_idempotent (pick : List String → Nat) (st : TrackerState)
    (msg : String) (n : Int) :
    tCount (processMessage pick (processMessage pick st msg) msg).timeline n ≤
      tCount st.timeline n + 1 :=
  (((processMessage_TInv pick st msg n).1).comp
    ((processMessage_TInv pick (processMessage pick st msg) msg n).1)).count_le

/-- Claim C4: a thought line processed when no step is open (no current
step, no previously seen step, empty timeline) first materializes an
implicit step record numbered 1 and then attaches the thought to it: the
resulting step 1 has `is_implicit = true` and holds exactly that thought. -/
theorem C4_implicit_step_one (st : TrackerState) (tt c raw : String)
    (hcur : st.current_step = none) (hlast : st.last_step_number ≤ 0)
    (htl : st.timeline = []) :
    ∃ stp, findStep (addThoughtToStep st tt c raw).timeline 1 = some stp ∧
      stp.is_implicit = true ∧ stp.step_number = 1 ∧
      stp.thoughts = [{ type := normalizeThoughtType tt, original_type := tt,
                        content := c, raw_message := raw }] := by
  obtain ⟨tl, cur, last, rm, mcs, tbs, td, tp, ts, ls, lt, um⟩ := st
  simp only at hcur hlast htl
  subst hcur htl
  unfold addThoughtToStep thoughtTarget updateThoughtStats addThoughtCore
    createImplicitStep attachThought
  dsimp only
  rw [if_neg (not_lt.mpr hlast)]
  exact ⟨_, rfl, rfl, rfl, rfl⟩

/-- Claim C4, witness: a memory thought arriving at a freshly started
tracker lands in an implicit step 1. -/
theorem C4_witness :
    ∃ stp, findStep (addThoughtToStep (initialState 1000) "memory" "saw 3 items"
        "🧠 Memory: saw 3 items").timeline 1 = some stp ∧
      stp.is_implicit = true ∧ stp.step_number = 1 ∧
      stp.thoughts = [{ type := normalizeThoughtType "memory", original_type := "memory",
                        content := "saw 3 items", raw_message := "🧠 Memory: saw 3 items" }] :=
  C4_implicit_step_one (initialState 1000) "memory" "saw 3 items"
    "🧠 Memory: saw 3 items" rfl (by decide) rfl

/-- Claim C7: from a freshly started tracker,
`"LLM Request: model=gpt-4, prompt=hello, tokens=120"` followed by
`"Estimated cost: $0.0036"` yields total tokens 120 and an accumulated cost
of 0.0036 on the "gpt-4" per-model breakdown; the model-less cost line is
attributed to the last known current model ("gpt-4"). -/
theorem C7_llm_telemetry_scenario :
    c7state.llm_stats.total_tokens = 120 ∧
    (getModel c7state.llm_stats.models "gpt-4").map ModelStats.total_cost
      = some (0.0036 : ℚ) ∧
    c7state.llm_stats.estimated_cost = (0.0036 : ℚ) ∧
    c7state.llm_tracking.current_model = some "gpt-4" := by
  have hq : mkRat 36 10000 = (0.0036 : ℚ) := by
    rw [Rat.mkRat_eq_div]; norm_num
  refine ⟨by decide, ?_, ?_, by decide⟩
  · rw [show (getModel c7state.llm_stats.models "gpt-4").map ModelStats.total_cost
        = some (mkRat 36 10000) from by decide, hq]
  · rw [show c7state.llm_stats.estimated_cost = mkRat 36 10000 from by decide, hq]

/-- Claim C9: an action line whose captured payload fails JSON parsing and
that carries no explicit type is still captured (no exception is possible:
the embedding is a total function) with `action_type = "text"` and a
payload preserving the raw captured text — on the current step when one is
set, otherwise in the unknown-message sink. -/
theorem C9_invalid_payload_text_fallback (st : TrackerState)
    (pn content msg : String)
    (h1 : pn ≠ "action") (h2 : pn ≠ "action_result")
    (hparse : (Json.parse content).isNone = true) :
    processAction st pn content msg none =
      match st.current_step with
      | some k => attachAction st k
          { type := Json.str "text",
            data := Json.obj [("text", Json.str content)], raw_message := msg }
      | none =>
        { st with unknown_messages := st.unknown_messages ++
            [{ message := msg, action_content := some content,
               action_type := some (Json.str "text"),
               reason := some "Nenhum passo atual definido para associar a ação" }] } := by
  unfold processAction
  dsimp only
  have hb : (pn == "action" || pn == "action_result") = false := by
    simp [h1, h2]
  have hp : Json.parse content = none := Option.isNone_iff_eq_none.mp hparse
  rw [hb, hp]
  rfl

/-- Claim C9, witness: `"Action: {invalid}"` routed through the JSON-action
branch with no current step lands in the unknown sink as a text action. -/
theorem C9_witness :
    processAction (initialState 1000) "action_json" "{invalid}"
        "Action: {invalid}" none =
      { initialState 1000 with unknown_messages :=
          (initialState 1000).unknown_messages ++
          [{ message := "Action: {invalid}", action_content := some "{invalid}",
             action_type := some (Json.str "text"),
             reason := some "Nenhum passo atual definido para associar a ação" }] } :=
  C9_invalid_payload_text_fallback (initialState 1000) "action_json" "{invalid}"
    "Action: {invalid}" (by decide) (by decide) (by decide)

/-- Claim C10: a processed line (not suppressed by the dedup cache) that
matches no pattern rule is appended to the unknown-message buffer if and
only if its lower-cased text holds one of the keywords `thought`,
`thinking`, `step`, `memory`, `goal`, `eval`; otherwise the only state
change is the dedup-cache bookkeeping — nothing else records the line. -/
theorem C10_unknown_keyword_gate (pick : List String → Nat) (st : TrackerState)
    (msg : String)
    (hnew : st.recent_messages.contains msg = false)
    (hnomatch : PATTERNS.all (fun p => (reSearch p.2 msg).isNone) = true) :
    processMessage pick st msg =
      { st with
        recent_messages :=
          if (st.recent_messages ++ [msg]).length > st.message_cache_size then
            (st.recent_messages ++ [msg]).eraseIdx (pick (st.recent_messages ++ [msg]))
          else st.recent_messages ++ [msg],
        unknown_messages :=
          if keywordRelevant msg then st.unknown_messages ++ [{ message := msg }]
          else st.unknown_messages } := by
  have hnosome : ∀ p ∈ PATTERNS, ¬((reSearch p.2 msg).isSome = true) := by
    intro p hp hsome
    have hn := List.all_eq_true.mp hnomatch p hp
    rw [Option.isNone_iff_eq_none] at hn
    rw [hn] at hsome
    exact absurd hsome (by simp)
  unfold processMessage
  rw [if_neg (by rw [hnew]; exact Bool.false_ne_true)]
  dsimp only
  by_cases hlen : (st.recent_messages ++ [msg]).length > st.message_cache_size
  · rw [if_pos hlen]
    have hid : applyRules { st with recent_messages :=
        (st.recent_messages ++ [msg]).eraseIdx (pick (st.recent_messages ++ [msg])) } msg =
        { st with recent_messages :=
          (st.recent_messages ++ [msg]).eraseIdx (pick (st.recent_messages ++ [msg])) } := by
      rw [applyRules_filter, List.filter_eq_nil_iff.mpr hnosome]
      rfl
    rw [hid, if_neg (by rw [List.any_eq_false.mpr hnosome]; exact Bool.false_ne_true)]
    rw [if_pos hlen]
    by_cases hk : keywordRelevant msg = true
    · rw [if_pos hk, if_pos hk]
    · rw [if_neg hk, if_neg hk]
  · rw [if_neg hlen]
    have hid : applyRules { st with recent_messages := st.recent_messages ++ [msg] } msg =
        { st with recent_messages := st.recent_messages ++ [msg] } := by
      rw [applyRules_filter, List.filter_eq_nil_iff.mpr hnosome]
      rfl
    rw [hid, if_neg (by rw [List.any_eq_false.mpr hnosome]; exact Bool.false_ne_true)]
    rw [if_neg hlen]
    by_cases hk : keywordRelevant msg = true
    · rw [if_pos hk, if_pos hk]
    · rw [if_neg hk, if_neg hk]

/-- Claim C10, witness: the unmatched keyword line `"some thinking here"`
is appended to the unknown buffer and only the cache also changes. -/
theorem C10_witness :
    processMessage (fun _ => 0) (initialState 1000) "some thinking here" =
      { initialState 1000 with
        recent_messages :=
          if (((initialState 1000).recent_messages ++ ["some thinking here"]).length >
              (initialState 1000).message_cache_size) then
            (((initialState 1000).recent_messages ++ ["some thinking here"]).eraseIdx
              ((fun _ => 0) ((initialState 1000).recent_messages ++ ["some thinking here"])))
          else (initialState 1000).recent_messages ++ ["some thinking here"],
        unknown_messages :=
          if keywordRelevant "some thinking here" then
            (initialState 1000).unknown_messages ++ [{ message := "some thinking here" }]
          else (initialState 1000).unknown_messages } :=
  C10_unknown_keyword_gate (fun _ => 0) (initialState 1000) "some thinking here"
    (by decide) (by decide)

/-- Claim C1, counterexample: the dedup cache is a Python `set`, and
`set.pop()` removes an ARBITRARY element.  With capacity 2 and the three
distinct (pattern-less) lines "nox a", "nox b", "nox c", the admissible
eviction choice that removes the newest entry leaves the OLDEST line still
cached — refuting "the eviction removes exactly the oldest cached entry, so
the earliest line is no longer deduplicated while every more recent line
still is". -/
theorem C1_counterexample :
    ¬ (∀ pick : List String → Nat, (∀ l, l ≠ [] → pick l < l.length) →
        ((["nox a", "nox b", "nox c"].foldl (processMessage pick)
            (initialState 2)).recent_messages.contains "nox a" = false ∧
         (["nox a", "nox b", "nox c"].foldl (processMessage pick)
            (initialState 2)).recent_messages.contains "nox b" = true ∧
         (["nox a", "nox b", "nox c"].foldl (processMessage pick)
            (initialState 2)).recent_messages.contains "nox c" = true)) := by
  intro hclaim
  have hadm : ∀ l : List String, l ≠ [] → l.length - 1 < l.length := by
    intro l hl
    exact Nat.sub_lt (List.length_pos.mpr hl) one_pos
  have h := (hclaim (fun l => l.length - 1) hadm).1
  rw [show (["nox a", "nox b", "nox c"].foldl
      (processMessage (fun l => l.length - 1))
      (initialState 2)).recent_messages.contains "nox a" = true from by decide] at h
  exact absurd h (by simp)

/-- Claim C1 (amended): once the bounded capacity is exceeded, message
processing evicts exactly one arbitrary cached entry (Python `set.pop()`) —
not necessarily the oldest: the cache stays within its capacity bound and
never holds anything but previously seen lines and the new line; which
entry loses dedup protection is unspecified. -/
theorem C1_amended_arbitrary_bounded_eviction (pick : List String → Nat)
    (st : TrackerState) (msg : String)
    (hpick : ∀ l, l ≠ [] → pick l < l.length)
    (hlen : st.recent_messages.length ≤ st.message_cache_size) :
    (processMessage pick st msg).recent_messages.length ≤ st.message_cache_size ∧
    ∀ x ∈ (processMessage pick st msg).recent_messages,
      x ∈ st.recent_messages ∨ x = msg := by
  by_cases hmem : st.recent_messages.contains msg = true
  · have hunch : processMessage pick st msg = st := by
      unfold processMessage
      rw [if_pos hmem]
    rw [hunch]
    exact ⟨hlen, fun x hx => Or.inl hx⟩
  · have hnew : st.recent_messages.contains msg = false := by
      cases hc : st.recent_messages.contains msg with
      | false => rfl
      | true => exact absurd hc hmem
    rw [processMessage_cache pick st msg hnew]
    constructor
    · split
      · rename_i hgt
        rw [List.length_eraseIdx]
        rw [if_pos (hpick _ (by simp))]
        simp only [List.length_append, List.length_cons, List.length_nil] at hgt ⊢
        omega
      · rename_i hle
        simp only [List.length_append, List.length_cons, List.length_nil] at hle ⊢
        omega
    · intro x hx
      have hx2 : x ∈ st.recent_messages ++ [msg] := by
        split at hx
        · exact List.mem_of_mem_eraseIdx hx
        · exact hx
      rcases List.mem_append.mp hx2 with h | h
      · exact Or.inl h
      · exact Or.inr (by simpa using h)

/-- Claim C1 (amended), witness: processing a fresh line against a fresh
capacity-2 tracker keeps the cache within bound and only ever holds seen
lines. -/
theorem C1_amended_witness :
    (processMessage (fun l => l.length - 1) (initialState 2) "nox a").recent_messages.length ≤ 2 ∧
    ∀ x ∈ (processMessage (fun l => l.length - 1) (initialState 2) "nox a").recent_messages,
      x ∈ (initialState 2).recent_messages ∨ x = "nox a" :=
  C1_amended_arbitrary_bounded_eviction (fun l => l.length - 1) (initialState 2) "nox a"
    (fun l hl => Nat.sub_lt (List.length_pos.mpr hl) one_pos) (by decide)

end Z2B
